import Mathlib

/-!
Verification of the strapi database core (`Database` class and the UID
uniqueness finder) against its natural-language specification.

The JavaScript source is shallowly embedded: the asynchronous, effectful
methods (`connection.transaction()`, `trx.commit()`, `trx.rollback()`, the
`onSuccess`/`onError` hooks, `transactionCtx.run/get`) are modelled as pure
state-passing functions over an explicit `DBState` that records the ambient
transaction context, a fresh-handle counter and an event log.  Transaction
handles are identified by natural numbers handed out by the counter.
-/

namespace StrapiDB

/-- Observable driver-level events emitted while a `Database` runs. -/
inductive Event where
  | opened (h : Nat)
  | committed (h : Nat)
  | rolledBack (h : Nat)
  | onSuccessRan
  | onErrorRan
deriving DecidableEq, Repr

/-- The ambient state threaded through the embedded `Database` methods:
`ambient` is `transactionCtx.get()` (the ambient transaction handle, if any),
`next` is the next fresh handle id the driver will hand out, and `log` is the
trace of driver events so far. -/
structure DBState where
  ambient : Option Nat
  next : Nat
  log : List Event
deriving DecidableEq, Repr

/-- `this.connection.transaction()`: open a fresh transaction handle. -/
def openTrx (s : DBState) : Nat × DBState :=
  (s.next, { s with next := s.next + 1, log := s.log ++ [Event.opened s.next] })

/-- `trx.commit()` on handle `h`. -/
def commitTrx (h : Nat) (s : DBState) : DBState :=
  { s with log := s.log ++ [Event.committed h] }

/-- `trx.rollback()` on handle `h`. -/
def rollbackTrx (h : Nat) (s : DBState) : DBState :=
  { s with log := s.log ++ [Event.rolledBack h] }

/-- `await onSuccess?.()` when an `onSuccess` hook was supplied. -/
def runOnSuccess (s : DBState) : DBState :=
  { s with log := s.log ++ [Event.onSuccessRan] }

/-- `await onError?.()` when an `onError` hook was supplied. -/
def runOnError (s : DBState) : DBState :=
  { s with log := s.log ++ [Event.onErrorRan] }

/-- The handle line 53 of `Database.transaction` ends up with: the ambient
handle when nested, the freshly opened one otherwise. -/
def trxOf (s : DBState) : Nat :=
  match s.ambient with
  | some t => t
  | none => s.next

/-- The state after line 53 of `Database.transaction`: unchanged when nested,
with a fresh handle opened otherwise. -/
def afterOpen (s : DBState) : DBState :=
  match s.ambient with
  | some _ => s
  | none => (openTrx s).2

/-- `transactionCtx.run(trx, body)`: set the ambient handle for the dynamic
extent of `body` and restore the prior ambient value on exit. -/
def ctxRun {r : Type} (trx : Nat) (body : DBState → r × DBState) (s : DBState) :
    r × DBState :=
  let saved := s.ambient
  let (res, s1) := body { s with ambient := some trx }
  (res, { s1 with ambient := saved })

/-- `Database.transaction(cb, { onError, onSuccess })` with a callback
(lines 51-88).  The callback is an arbitrary state transformer that receives
the transaction handle and either returns a value or throws an error
(`Except.error`).  `hE`/`hS` record whether an `onError`/`onSuccess` hook was
supplied. -/
def transaction {α : Type} (cb : Nat → DBState → Except Nat α × DBState)
    (hE hS : Bool) (s : DBState) : Except Nat α × DBState :=
  let notNested := s.ambient.isNone
  let trx := trxOf s
  let s1 := afterOpen s
  ctxRun trx
    (fun s2 =>
      match cb trx s2 with
      | (Except.ok res, s3) =>
          let s4 := if notNested then commitTrx trx s3 else s3
          let s5 := if hS then runOnSuccess s4 else s4
          (Except.ok res, s5)
      | (Except.error e, s3) =>
          let s4 := if notNested then rollbackTrx trx s3 else s3
          let s5 := if hE then runOnError s4 else s4
          (Except.error e, s5))
    s1

/-- The manual handle object returned by `Database.transaction()` when no
callback is supplied (lines 54-70): it closes over the handle `trxh` and the
`notNestedTransaction` flag. -/
structure ManualHandle where
  trxh : Nat
  notNested : Bool
deriving DecidableEq, Repr

/-- `commit()` of the manual handle: forwards to `trx.commit()` only when this
call opened the handle. -/
def ManualHandle.commit (m : ManualHandle) (s : DBState) : DBState :=
  if m.notNested then commitTrx m.trxh s else s

/-- `rollback()` of the manual handle: forwards to `trx.rollback()` only when
this call opened the handle. -/
def ManualHandle.rollback (m : ManualHandle) (s : DBState) : DBState :=
  if m.notNested then rollbackTrx m.trxh s else s

/-- `get()` of the manual handle. -/
def ManualHandle.get (m : ManualHandle) : Nat :=
  m.trxh

/-- `Database.transaction()` called with no callback (lines 51-70). -/
def transactionNoCb (s : DBState) : ManualHandle × DBState :=
  (⟨trxOf s, s.ambient.isNone⟩, afterOpen s)

/-- Call chains of nested `Database.transaction` calls: a leaf computation
that succeeds or throws, sequencing, and a `Database.transaction` call whose
callback runs the given sub-program. -/
inductive Prog where
  | act (res : Except Nat Unit)
  | seq (p q : Prog)
  | transact (p : Prog)
deriving Repr

/-- Interpreter for `Prog`.  The `transact` case inlines
`transaction (fun _ => exec p) false false`; `exec_transact` below proves the
two agree. -/
def exec : Prog → DBState → Except Nat Unit × DBState
  | Prog.act r, s => (r, s)
  | Prog.seq p q, s =>
      match exec p s with
      | (Except.ok _, s1) => exec q s1
      | (Except.error e, s1) => (Except.error e, s1)
  | Prog.transact p, s =>
      let notNested := s.ambient.isNone
      let trx := trxOf s
      let s1 := afterOpen s
      let saved := s1.ambient
      let (res, s5) :=
        match exec p { s1 with ambient := some trx } with
        | (Except.ok u, s3) => (Except.ok u, if notNested then commitTrx trx s3 else s3)
        | (Except.error e, s3) =>
            (Except.error e, if notNested then rollbackTrx trx s3 else s3)
      (res, { s5 with ambient := saved })

/-- The inlined `transact` case of `exec` is exactly `transaction` applied to
the interpreted sub-program with no hooks. -/
theorem exec_transact (p : Prog) (s : DBState) :
    exec (Prog.transact p) s = transaction (fun _ => exec p) false false s := by
  simp only [exec, transaction, ctxRun]
  split <;> simp_all

/-- Is `e` the event of opening handle `h`? -/
def isOpenEv (h : Nat) (e : Event) : Bool :=
  match e with
  | Event.opened h1 => h1 = h
  | _ => false

/-- Is `e` a finalization (commit or rollback) of handle `h`? -/
def isFinalEv (h : Nat) (e : Event) : Bool :=
  match e with
  | Event.committed h1 => h1 = h
  | Event.rolledBack h1 => h1 = h
  | _ => false

/-- How many times handle `h` is opened in the trace `l`. -/
def countOpened (l : List Event) (h : Nat) : Nat :=
  l.countP (isOpenEv h)

/-- How many times handle `h` is finalized (committed or rolled back) in `l`. -/
def countFinal (l : List Event) (h : Nat) : Nat :=
  l.countP (isFinalEv h)

/-- The state a fresh `Database` starts from: no ambient transaction, no
handles handed out, empty trace. -/
def initState : DBState :=
  ⟨none, 0, []⟩

theorem countOpened_nil (h : Nat) : countOpened [] h = 0 := rfl

theorem countFinal_nil (h : Nat) : countFinal [] h = 0 := rfl

theorem countOpened_append (l1 l2 : List Event) (h : Nat) :
    countOpened (l1 ++ l2) h = countOpened l1 h + countOpened l2 h := by
  simp [countOpened, List.countP_append]

theorem countFinal_append (l1 l2 : List Event) (h : Nat) :
    countFinal (l1 ++ l2) h = countFinal l1 h + countFinal l2 h := by
  simp [countFinal, List.countP_append]

theorem countOpened_opened (n h : Nat) :
    countOpened [Event.opened n] h = if n = h then 1 else 0 := by
  simp [countOpened, List.countP_cons, List.countP_nil, isOpenEv]

theorem countOpened_committed (n h : Nat) : countOpened [Event.committed n] h = 0 := by
  simp [countOpened, List.countP_cons, List.countP_nil, isOpenEv]

theorem countOpened_rolledBack (n h : Nat) : countOpened [Event.rolledBack n] h = 0 := by
  simp [countOpened, List.countP_cons, List.countP_nil, isOpenEv]

theorem countFinal_opened (n h : Nat) : countFinal [Event.opened n] h = 0 := by
  simp [countFinal, List.countP_cons, List.countP_nil, isFinalEv]

theorem countFinal_committed (n h : Nat) :
    countFinal [Event.committed n] h = if n = h then 1 else 0 := by
  simp [countFinal, List.countP_cons, List.countP_nil, isFinalEv]

theorem countFinal_rolledBack (n h : Nat) :
    countFinal [Event.rolledBack n] h = if n = h then 1 else 0 := by
  simp [countFinal, List.countP_cons, List.countP_nil, isFinalEv]

/-- Computation rule: a nested `transaction` call (ambient handle `t` present)
runs its body with the same ambient handle, passes the body's result through
and neither opens nor finalizes anything itself. -/
theorem exec_transact_nested (p : Prog) (s : DBState) (t : Nat)
    (r : Except Nat Unit) (s3 : DBState) (hamb : s.ambient = some t)
    (hres : exec p ⟨some t, s.next, s.log⟩ = (r, s3)) :
    exec (Prog.transact p) s = (r, ⟨s.ambient, s3.next, s3.log⟩) := by
  have hA : afterOpen s = s := by simp [afterOpen, hamb]
  have hT : trxOf s = t := by simp [trxOf, hamb]
  have hN : s.ambient.isNone = false := by simp [hamb]
  simp only [exec, hA, hT, hN, Bool.false_eq_true, if_false, hres]
  cases r <;> rfl

/-- Computation rule: an outermost `transaction` call whose body succeeds
opens a fresh handle, runs the body with it ambient, commits it and restores
the empty ambient context. -/
theorem exec_transact_outer_ok (p : Prog) (s : DBState) (u : Unit) (s3 : DBState)
    (hamb : s.ambient = none)
    (hres : exec p ⟨some s.next, s.next + 1, s.log ++ [Event.opened s.next]⟩ =
      (Except.ok u, s3)) :
    exec (Prog.transact p) s =
      (Except.ok u, ⟨none, s3.next, s3.log ++ [Event.committed s.next]⟩) := by
  have hA : afterOpen s = ⟨none, s.next + 1, s.log ++ [Event.opened s.next]⟩ := by
    simp [afterOpen, openTrx, hamb]
  have hT : trxOf s = s.next := by simp [trxOf, hamb]
  have hN : s.ambient.isNone = true := by simp [hamb]
  simp only [exec, hA, hT, hN, if_true, hres, commitTrx]

/-- Computation rule: an outermost `transaction` call whose body throws opens
a fresh handle, runs the body with it ambient, rolls it back, restores the
empty ambient context and re-signals the body's error. -/
theorem exec_transact_outer_err (p : Prog) (s : DBState) (e : Nat) (s3 : DBState)
    (hamb : s.ambient = none)
    (hres : exec p ⟨some s.next, s.next + 1, s.log ++ [Event.opened s.next]⟩ =
      (Except.error e, s3)) :
    exec (Prog.transact p) s =
      (Except.error e, ⟨none, s3.next, s3.log ++ [Event.rolledBack s.next]⟩) := by
  have hA : afterOpen s = ⟨none, s.next + 1, s.log ++ [Event.opened s.next]⟩ := by
    simp [afterOpen, openTrx, hamb]
  have hT : trxOf s = s.next := by simp [trxOf, hamb]
  have hN : s.ambient.isNone = true := by simp [hamb]
  simp only [exec, hA, hT, hN, if_true, hres, rollbackTrx]

/-- Main execution invariant for call chains of nested `transaction` calls:
the ambient context is restored on exit, the handle counter grows, the trace
only grows, a nested execution (ambient handle present) neither opens nor
finalizes any handle, and an outermost execution (no ambient handle) opens
exactly the handles `[s.next, next')` once each and finalizes each opened
handle exactly as many times as it opens it. -/
theorem exec_inv (p : Prog) (s : DBState) :
    (exec p s).2.ambient = s.ambient ∧
    s.next ≤ (exec p s).2.next ∧
    ∃ d, (exec p s).2.log = s.log ++ d ∧
      (∀ t, s.ambient = some t → (exec p s).2.next = s.next ∧
          ∀ h, countOpened d h = 0 ∧ countFinal d h = 0) ∧
      (s.ambient = none →
          ∀ h, (countOpened d h = if s.next ≤ h ∧ h < (exec p s).2.next then 1 else 0) ∧
               countFinal d h = countOpened d h) := by
  induction p generalizing s with
  | act r =>
    refine ⟨rfl, Nat.le_refl _, [], by simp [exec], ?_, ?_⟩
    · intro t _
      exact ⟨rfl, fun h => ⟨rfl, rfl⟩⟩
    · intro _ h
      refine ⟨?_, rfl⟩
      simp only [exec, countOpened_nil]
      split_ifs with hc
      · omega
      · rfl
  | seq p q ihp ihq =>
    have hp := ihp s
    rcases hep : exec p s with ⟨rp, sp⟩
    rw [hep] at hp
    dsimp only at hp
    cases rp with
    | error e =>
      simpa only [exec, hep] using hp
    | ok u =>
      have hq := ihq sp
      rcases heq : exec q sp with ⟨rq, sq⟩
      rw [heq] at hq
      dsimp only at hq
      simp only [exec, hep, heq]
      obtain ⟨hamb1, hle1, d1, hlog1, hsome1, hnone1⟩ := hp
      obtain ⟨hamb2, hle2, d2, hlog2, hsome2, hnone2⟩ := hq
      refine ⟨hamb2.trans hamb1, Nat.le_trans hle1 hle2, d1 ++ d2, ?_, ?_, ?_⟩
      · rw [hlog2, hlog1, List.append_assoc]
      · intro t ht
        have h1 := hsome1 t ht
        have h2 := hsome2 t (by rw [hamb1]; exact ht)
        refine ⟨by rw [h2.1, h1.1], fun h => ?_⟩
        rw [countOpened_append, countFinal_append, (h1.2 h).1, (h1.2 h).2,
          (h2.2 h).1, (h2.2 h).2]
        exact ⟨rfl, rfl⟩
      · intro hn h
        have h1 := hnone1 hn h
        have h2 := hnone2 (by rw [hamb1]; exact hn) h
        constructor
        · rw [countOpened_append, h1.1, h2.1]
          split_ifs <;> omega
        · rw [countFinal_append, countOpened_append, h1.2, h2.2]
  | transact p ih =>
    cases hamb : s.ambient with
    | some t =>
      have hb := ih ⟨some t, s.next, s.log⟩
      rcases heb : exec p ⟨some t, s.next, s.log⟩ with ⟨rb, sb⟩
      rw [heb] at hb
      dsimp only at hb
      obtain ⟨hambb, _, db, hlogb, hsomeb, _⟩ := hb
      have hbs := hsomeb t rfl
      rw [exec_transact_nested p s t rb sb hamb heb]
      dsimp only
      refine ⟨hamb, Nat.le_of_eq hbs.1.symm, db, hlogb, ?_, ?_⟩
      · intro t' _
        exact ⟨hbs.1, hbs.2⟩
      · intro hc
        exact Option.noConfusion hc
    | none =>
      have hb := ih ⟨some s.next, s.next + 1, s.log ++ [Event.opened s.next]⟩
      rcases heb : exec p ⟨some s.next, s.next + 1, s.log ++ [Event.opened s.next]⟩
        with ⟨rb, sb⟩
      rw [heb] at hb
      dsimp only at hb
      obtain ⟨hambb, _, db, hlogb, hsomeb, _⟩ := hb
      have hbs := hsomeb s.next rfl
      cases rb with
      | ok u =>
        rw [exec_transact_outer_ok p s u sb hamb heb]
        dsimp only
        refine ⟨rfl, by rw [hbs.1]; omega,
          [Event.opened s.next] ++ db ++ [Event.committed s.next], ?_, ?_, ?_⟩
        · rw [hlogb]
          simp [List.append_assoc]
        · intro t' ht'
          exact Option.noConfusion ht'
        · intro _ h
          rw [hbs.1, countOpened_append, countOpened_append, countFinal_append,
            countFinal_append, countOpened_opened, countOpened_committed,
            countFinal_opened, countFinal_committed, (hbs.2 h).1, (hbs.2 h).2]
          constructor
          · split_ifs <;> omega
          · split_ifs <;> omega
      | error e =>
        rw [exec_transact_outer_err p s e sb hamb heb]
        dsimp only
        refine ⟨rfl, by rw [hbs.1]; omega,
          [Event.opened s.next] ++ db ++ [Event.rolledBack s.next], ?_, ?_, ?_⟩
        · rw [hlogb]
          simp [List.append_assoc]
        · intro t' ht'
          exact Option.noConfusion ht'
        · intro _ h
          rw [hbs.1, countOpened_append, countOpened_append, countFinal_append,
            countFinal_append, countOpened_opened, countOpened_rolledBack,
            countFinal_opened, countFinal_rolledBack, (hbs.2 h).1, (hbs.2 h).2]
          constructor
          · split_ifs <;> omega
          · split_ifs <;> omega

/-- `afterOpen` never changes the ambient context. -/
theorem afterOpen_ambient (s : DBState) : (afterOpen s).ambient = s.ambient := by
  cases h : s.ambient <;> simp [afterOpen, openTrx, h]

/-- A callback that throws error `7` without touching the state. -/
def cbThrow : Nat → DBState → Except Nat Unit × DBState :=
  fun _ s => (Except.error 7, s)

/-- A callback that returns `42` without touching the state. -/
def cbOk : Nat → DBState → Except Nat Nat × DBState :=
  fun _ s => (Except.ok 42, s)

/-- C1: over any call chain of nested `Database.transaction` calls started
with no ambient transaction, every transaction handle that gets opened is
finalized (committed or rolled back) exactly once; and any chain that starts
under an ambient handle (`nested = true`) performs no open and no
commit/rollback at all, so a handle is only ever finalized by the call that
created it. -/
theorem C1_nested_transactions_finalize_exactly_once (p : Prog) :
    (∀ h, (countOpened (exec p initState).2.log h =
        if h < (exec p initState).2.next then 1 else 0) ∧
      countFinal (exec p initState).2.log h = countOpened (exec p initState).2.log h)
    ∧ ∀ (tr n : Nat) (l : List Event) (h : Nat),
        countOpened (exec p ⟨some tr, n, l⟩).2.log h = countOpened l h ∧
        countFinal (exec p ⟨some tr, n, l⟩).2.log h = countFinal l h := by
  constructor
  · intro h
    obtain ⟨_, _, d, hlog, _, hnone⟩ := exec_inv p initState
    have hd := hnone rfl h
    have hlog2 : (exec p initState).2.log = d := by simpa [initState] using hlog
    refine ⟨?_, ?_⟩
    · rw [hlog2, hd.1]
      have h0 : initState.next = 0 := rfl
      rw [h0]
      split_ifs <;> omega
    · rw [hlog2]
      exact hd.2
  · intro tr n l h
    obtain ⟨_, _, d, hlog, hsome, _⟩ := exec_inv p ⟨some tr, n, l⟩
    have hz := hsome tr rfl
    dsimp only at hlog
    rw [hlog, countOpened_append, countFinal_append, (hz.2 h).1, (hz.2 h).2]
    omega

/-- C2: if the callback of `Database.transaction(cb, {onError, onSuccess})`
throws, then the exact original error is re-thrown to the caller, the handle
is rolled back if and only if this call opened it (`notNested`), the
`onError` hook runs after the rollback, and the ambient context is
restored. -/
theorem C2_transaction_error_path {α : Type}
    (cb : Nat → DBState → Except Nat α × DBState) (hE hS : Bool) (s : DBState)
    (e : Nat) (v3 : DBState)
    (hcb : cb (trxOf s) ⟨some (trxOf s), (afterOpen s).next, (afterOpen s).log⟩ =
      (Except.error e, v3)) :
    (transaction cb hE hS s).1 = Except.error e ∧
    (transaction cb hE hS s).2.ambient = s.ambient ∧
    (transaction cb hE hS s).2.next = v3.next ∧
    (transaction cb hE hS s).2.log =
      v3.log ++ (if s.ambient.isNone then [Event.rolledBack (trxOf s)] else [])
        ++ (if hE then [Event.onErrorRan] else []) := by
  simp only [transaction, ctxRun, hcb]
  cases hO : s.ambient.isNone <;> cases hE <;>
    simp [rollbackTrx, runOnError, List.append_assoc, afterOpen_ambient]

/-- C3: if the callback of `Database.transaction(cb, {onError, onSuccess})`
returns a value, then that exact value is returned to the caller, the handle
is committed if and only if this call opened it (`notNested`), the
`onSuccess` hook runs after the commit, and the ambient context is
restored. -/
theorem C3_transaction_success_path {α : Type}
    (cb : Nat → DBState → Except Nat α × DBState) (hE hS : Bool) (s : DBState)
    (v : α) (v3 : DBState)
    (hcb : cb (trxOf s) ⟨some (trxOf s), (afterOpen s).next, (afterOpen s).log⟩ =
      (Except.ok v, v3)) :
    (transaction cb hE hS s).1 = Except.ok v ∧
    (transaction cb hE hS s).2.ambient = s.ambient ∧
    (transaction cb hE hS s).2.next = v3.next ∧
    (transaction cb hE hS s).2.log =
      v3.log ++ (if s.ambient.isNone then [Event.committed (trxOf s)] else [])
        ++ (if hS then [Event.onSuccessRan] else []) := by
  simp only [transaction, ctxRun, hcb]
  cases hO : s.ambient.isNone <;> cases hS <;>
    simp [commitTrx, runOnSuccess, List.append_assoc, afterOpen_ambient]

/-- Witness for C2 at a concrete callback and the fresh initial state: the
callback's error `7` is re-thrown untouched and the trace is
open, rollback, onError. -/
theorem C2_transaction_error_path_witness :
    (transaction cbThrow true true initState).1 = Except.error 7 ∧
    (transaction cbThrow true true initState).2.log =
      [Event.opened 0, Event.rolledBack 0, Event.onErrorRan] := by
  have h := C2_transaction_error_path cbThrow true true initState 7
    ⟨some 0, 1, [Event.opened 0]⟩ rfl
  exact ⟨h.1, h.2.2.2.trans (by decide)⟩

/-- Witness for C3 at a concrete callback and the fresh initial state: the
callback's value `42` is returned and the trace is open, commit,
onSuccess. -/
theorem C3_transaction_success_path_witness :
    (transaction cbOk true true initState).1 = Except.ok 42 ∧
    (transaction cbOk true true initState).2.log =
      [Event.opened 0, Event.committed 0, Event.onSuccessRan] := by
  have h := C3_transaction_success_path cbOk true true initState 42
    ⟨some 0, 1, [Event.opened 0]⟩ rfl
  exact ⟨h.1, h.2.2.2.trans (by decide)⟩

/-- C5: `Database.transaction()` without a callback returns a manual handle
whose `get()` is the ambient handle when nested and a newly opened handle
otherwise (a fresh handle is opened exactly in the non-nested case), and
whose `commit()`/`rollback()` forward to the underlying handle when this call
opened it but leave the state untouched (no finalization) when nested. -/
theorem C5_manual_transaction_handle (s r : DBState) :
    ((transactionNoCb s).1.get = match s.ambient with
      | some t => t
      | none => s.next) ∧
    ((transactionNoCb s).2 = match s.ambient with
      | some _ => s
      | none => ⟨s.ambient, s.next + 1, s.log ++ [Event.opened s.next]⟩) ∧
    ((transactionNoCb s).1.commit r =
      if s.ambient.isNone then commitTrx (trxOf s) r else r) ∧
    ((transactionNoCb s).1.rollback r =
      if s.ambient.isNone then rollbackTrx (trxOf s) r else r) := by
  cases hamb : s.ambient <;>
    simp [transactionNoCb, ManualHandle.get, ManualHandle.commit,
      ManualHandle.rollback, trxOf, afterOpen, openTrx, hamb]

end StrapiDB

namespace StrapiUID

/-!
Embedding of the UID service (`findUniqueUID`).  The service queries the rows
whose `field` value contains `value` and maps them to that field; the
embedding takes that list of strings (`possibleColisions`) as input and
mirrors the rest of the function: if the list is empty return `value`
unchanged, otherwise run the while loop trying `value-1`, `value-2`, ... until
a candidate is not in the list.  The loop is given fuel
`possibleColisions.length + 1`, which the pigeonhole lemma below proves is
always enough for the loop to reach a free candidate, so the fuelled function
agrees with the unbounded JavaScript loop. -/

/-- The template string `value-i` tried by the loop. -/
def candidate (value : String) (i : Nat) : String :=
  value ++ "-" ++ Nat.repr i

/-- The `while (possibleColisions.includes(tmpUId))` loop, fuelled. -/
def uidLoop (possibleColisions : List String) (value : String) : Nat → Nat → String
  | 0, i => candidate value i
  | fuel + 1, i =>
      if possibleColisions.contains (candidate value i) then
        uidLoop possibleColisions value fuel (i + 1)
      else candidate value i

/-- The index returned by the loop (the `i` of the returned `value-i`). -/
def uidLoopIdx (possibleColisions : List String) (value : String) : Nat → Nat → Nat
  | 0, i => i
  | fuel + 1, i =>
      if possibleColisions.contains (candidate value i) then
        uidLoopIdx possibleColisions value fuel (i + 1)
      else i

/-- `findUniqueUID` given the field values returned by the contains-filter
query. -/
def findUniqueUID (possibleColisions : List String) (value : String) : String :=
  if possibleColisions.length = 0 then value
  else uidLoop possibleColisions value (possibleColisions.length + 1) 1

/-- The suffix index `findUniqueUID` settles on in the non-empty case. -/
def firstFreeIdx (possibleColisions : List String) (value : String) : Nat :=
  uidLoopIdx possibleColisions value (possibleColisions.length + 1) 1

/-- One step of decimal decoding, used to invert `Nat.repr`. -/
def decStep (a : Nat) (c : Char) : Nat :=
  a * 10 + (c.toNat - 48)

/-- Decoding a digit character gives the digit back. -/
theorem digitChar_decode (m : Nat) (hm : m < 10) :
    (Nat.digitChar m).toNat - 48 = m := by
  interval_cases m <;> decide

/-- `combine a n`: the number whose decimal digits are those of `a` followed
by those of `n`. -/
def combine (a n : Nat) : Nat :=
  if _h : n < 10 then a * 10 + n
  else combine a (n / 10) * 10 + n % 10
termination_by n
decreasing_by exact Nat.div_lt_self (by omega) (by omega)

theorem combine_base (a n : Nat) (h : n < 10) : combine a n = a * 10 + n := by
  rw [combine, dif_pos h]

theorem combine_step (a n : Nat) (h : ¬n < 10) :
    combine a n = combine a (n / 10) * 10 + n % 10 := by
  rw [combine, dif_neg h]

theorem combine_id (n : Nat) : combine 0 n = n := by
  induction n using Nat.strong_induction_on with
  | _ n ih =>
    by_cases h : n < 10
    · rw [combine_base 0 n h]; omega
    · rw [combine_step 0 n h, ih (n / 10) (Nat.div_lt_self (by omega) (by omega))]
      have := Nat.div_add_mod n 10
      omega

/-- Folding the decimal decoder over `Nat.toDigitsCore` output: the digits of
`n` are pushed onto the accumulator, then the tail is processed. -/
theorem toDigitsCore_foldl (fuel : Nat) :
    ∀ n a ds, n < fuel →
      List.foldl decStep a (Nat.toDigitsCore 10 fuel n ds) =
        List.foldl decStep (combine a n) ds := by
  induction fuel with
  | zero => intro n a ds h; omega
  | succ fuel ih =>
    intro n a ds h
    simp only [Nat.toDigitsCore]
    by_cases h10 : n / 10 = 0
    · have hn : n < 10 := by
        rw [Nat.div_eq_zero_iff (by omega)] at h10
        exact h10
      rw [if_pos h10]
      simp only [List.foldl]
      rw [combine_base a n hn]
      have : decStep a (Nat.digitChar (n % 10)) = a * 10 + n := by
        rw [decStep, digitChar_decode (n % 10) (Nat.mod_lt n (by omega)),
          Nat.mod_eq_of_lt hn]
      rw [this]
    · rw [if_neg h10]
      have hge : ¬n < 10 := by
        intro hlt
        exact h10 ((Nat.div_eq_zero_iff (by omega)).mpr hlt)
      have hlt : n / 10 < fuel := by
        have h1 : n / 10 < n := Nat.div_lt_self (by omega) (by omega)
        omega
      rw [ih (n / 10) a (Nat.digitChar (n % 10) :: ds) hlt]
      simp only [List.foldl]
      rw [combine_step a n hge]
      have : decStep (combine a (n / 10)) (Nat.digitChar (n % 10)) =
          combine a (n / 10) * 10 + n % 10 := by
        rw [decStep, digitChar_decode (n % 10) (Nat.mod_lt n (by omega))]
      rw [this]

/-- The decimal decoder inverts `Nat.toDigits`. -/
theorem decode_toDigits (n : Nat) :
    List.foldl decStep 0 (Nat.toDigits 10 n) = n := by
  rw [Nat.toDigits, toDigitsCore_foldl (n + 1) n 0 [] (Nat.lt_succ_self n)]
  simp only [List.foldl]
  exact combine_id n

/-- Decimal printing of naturals is injective. -/
theorem repr_injective (m n : Nat) (h : Nat.repr m = Nat.repr n) : m = n := by
  have hdig : Nat.toDigits 10 m = Nat.toDigits 10 n := by
    have h2 := congrArg String.data h
    simpa [Nat.repr, List.asString] using h2
  have hm := decode_toDigits m
  have hn := decode_toDigits n
  rw [hdig, hn] at hm
  exact hm.symm

theorem data_append (a b : String) : (a ++ b).data = a.data ++ b.data := rfl

/-- Two distinct suffix indices give distinct candidate strings. -/
theorem candidate_inj (value : String) (i j : Nat)
    (h : candidate value i = candidate value j) : i = j := by
  apply repr_injective
  have h2 := congrArg String.data h
  simp only [candidate, data_append] at h2
  have h3 := List.append_cancel_left h2
  exact congrArg List.asString h3

/-- A suffixed candidate is never the base value (it is strictly longer). -/
theorem candidate_ne_value (value : String) (i : Nat) : candidate value i ≠ value := by
  intro h
  have h2 := congrArg String.length h
  have hdash : ("-" : String).length = 1 := rfl
  have hlen : (candidate value i).length =
      value.length + 1 + (Nat.repr i).length := by
    simp [candidate, String.length_append, hdash]
  rw [hlen] at h2
  omega

/-- Pigeonhole: among the `colls.length + 1` distinct candidates
`value-i, ..., value-(i + colls.length)` at least one is not contained in
`colls`, so the loop's fuel always suffices. -/
theorem exists_free_candidate (colls : List String) (value : String) (i : Nat) :
    ∃ j, i ≤ j ∧ j ≤ i + colls.length ∧
      colls.contains (candidate value j) = false := by
  by_contra hc
  push_neg at hc
  have hall : ∀ j, i ≤ j → j ≤ i + colls.length → candidate value j ∈ colls := by
    intro j h1 h2
    have h3 := hc j h1 h2
    have h4 : colls.contains (candidate value j) = true := by
      cases hx : colls.contains (candidate value j) with
      | false => exact absurd hx h3
      | true => rfl
    exact List.elem_iff.mp h4
  have hnodup : ((List.range (colls.length + 1)).map
      (fun t => candidate value (i + t))).Nodup := by
    refine List.Nodup.map ?_ (List.nodup_range _)
    intro a b hab
    have := candidate_inj value (i + a) (i + b) hab
    omega
  have hsub : ((List.range (colls.length + 1)).map
      (fun t => candidate value (i + t))) ⊆ colls := by
    intro x hx
    rw [List.mem_map] at hx
    obtain ⟨t, ht, rfl⟩ := hx
    rw [List.mem_range] at ht
    exact hall (i + t) (by omega) (by omega)
  have hlen := (List.subperm_of_subset hnodup hsub).length_le
  simp only [List.length_map, List.length_range] at hlen
  omega

/-- Whenever some candidate in the fuel window is free, the loop index
settles on the smallest free index at or above the start index. -/
theorem uidLoopIdx_spec (colls : List String) (value : String) :
    ∀ fuel i,
      (∃ j, i ≤ j ∧ j ≤ i + fuel ∧ colls.contains (candidate value j) = false) →
      i ≤ uidLoopIdx colls value fuel i ∧
      colls.contains (candidate value (uidLoopIdx colls value fuel i)) = false ∧
      ∀ j, i ≤ j → j < uidLoopIdx colls value fuel i →
        colls.contains (candidate value j) = true := by
  intro fuel
  induction fuel with
  | zero =>
    intro i hex
    obtain ⟨j, h1, h2, h3⟩ := hex
    have hji : j = i := by omega
    subst hji
    simp only [uidLoopIdx]
    exact ⟨Nat.le_refl j, h3, fun j2 hj1 hj2 => by omega⟩
  | succ fuel ih =>
    intro i hex
    obtain ⟨j, h1, h2, h3⟩ := hex
    simp only [uidLoopIdx]
    by_cases hci : colls.contains (candidate value i) = true
    · rw [if_pos hci]
      have hji : j ≠ i := by
        intro h
        subst h
        rw [hci] at h3
        cases h3
      obtain ⟨hle, hfree, hmin⟩ := ih (i + 1) ⟨j, by omega, by omega, h3⟩
      refine ⟨by omega, hfree, ?_⟩
      intro j2 hj1 hj2
      rcases Nat.eq_or_lt_of_le hj1 with he | hlt2
      · rw [← he]
        exact hci
      · exact hmin j2 (by omega) hj2
    · rw [if_neg hci]
      have hcf : colls.contains (candidate value i) = false := by
        cases hx : colls.contains (candidate value i) with
        | false => rfl
        | true => exact absurd hx hci
      exact ⟨Nat.le_refl i, hcf, fun j2 hj1 hj2 => by omega⟩

/-- The loop returns exactly the candidate of the index the loop settles
on. -/
theorem uidLoop_eq_candidate (colls : List String) (value : String) :
    ∀ fuel i, uidLoop colls value fuel i =
      candidate value (uidLoopIdx colls value fuel i) := by
  intro fuel
  induction fuel with
  | zero => intro i; rfl
  | succ fuel ih =>
    intro i
    simp only [uidLoop, uidLoopIdx]
    by_cases h : colls.contains (candidate value i) = true
    · rw [if_pos h, if_pos h]
      exact ih (i + 1)
    · rw [if_neg h, if_neg h]

/-- C6: when the contains-filter query returns no rows, `findUniqueUID`
returns the value unchanged; when the existing rows for `"post"` are exactly
`["post"]` it returns `"post-1"`; hence two sequential creations of the slug
`"post"` store the distinct values `"post"` and then `"post-1"`. -/
theorem C6_findUniqueUID_sequential_slugs (value : String) :
    findUniqueUID [] value = value ∧
    findUniqueUID [] "post" = "post" ∧
    findUniqueUID ["post"] "post" = "post-1" ∧
    ("post" : String) ≠ "post-1" := by
  refine ⟨by simp [findUniqueUID], by simp [findUniqueUID], by decide, by decide⟩

/-- C10: whenever the contains-filter query returns a non-empty list, the
function returns the suffixed candidate `value-i` for the smallest `i ≥ 1`
whose candidate is not in the list — all smaller suffixes are taken — and in
particular it never returns the base value itself, even if the base value is
absent from the list. -/
theorem C10_nonempty_collisions_always_suffix (possibleColisions : List String)
    (value : String) (hne : possibleColisions ≠ []) :
    findUniqueUID possibleColisions value =
      candidate value (firstFreeIdx possibleColisions value) ∧
    1 ≤ firstFreeIdx possibleColisions value ∧
    possibleColisions.contains
      (candidate value (firstFreeIdx possibleColisions value)) = false ∧
    ((List.range' 1 (firstFreeIdx possibleColisions value - 1)).all
      (fun j => possibleColisions.contains (candidate value j))) = true ∧
    findUniqueUID possibleColisions value ≠ value := by
  have hlen : possibleColisions.length ≠ 0 := by
    cases possibleColisions with
    | nil => exact absurd rfl hne
    | cons a l => simp
  have hex : ∃ j, 1 ≤ j ∧ j ≤ 1 + (possibleColisions.length + 1) ∧
      possibleColisions.contains (candidate value j) = false := by
    obtain ⟨j, h1, h2, h3⟩ := exists_free_candidate possibleColisions value 1
    exact ⟨j, h1, by omega, h3⟩
  obtain ⟨hge, hfree, hmin⟩ :=
    uidLoopIdx_spec possibleColisions value (possibleColisions.length + 1) 1 hex
  have hff : uidLoopIdx possibleColisions value (possibleColisions.length + 1) 1 =
      firstFreeIdx possibleColisions value := rfl
  rw [hff] at hge hfree hmin
  have heq : findUniqueUID possibleColisions value =
      candidate value (firstFreeIdx possibleColisions value) := by
    rw [findUniqueUID, if_neg hlen, firstFreeIdx]
    exact uidLoop_eq_candidate possibleColisions value
      (possibleColisions.length + 1) 1
  refine ⟨heq, hge, hfree, ?_, ?_⟩
  · rw [List.all_eq_true]
    intro j hj
    rw [List.mem_range'] at hj
    obtain ⟨k, hk1, hk2⟩ := hj
    exact hmin j (by omega) (by omega)
  · rw [heq]
    exact candidate_ne_value value _

/-- Witness for C10: with existing rows `["my-post"]` (a superstring match
only — the base `"post"` itself is free) the function still suffixes,
returning `"post-1"`, not `"post"`. -/
theorem C10_witness :
    findUniqueUID ["my-post"] "post" = "post-1" ∧
    findUniqueUID ["my-post"] "post" ≠ "post" := by
  have h := C10_nonempty_collisions_always_suffix ["my-post"] "post" (by decide)
  refine ⟨?_, h.2.2.2.2⟩
  rw [h.1]
  decide

end StrapiUID

namespace StrapiFacade

/-!
Embedding of the rest of the `Database` facade: `query` (lines 43-49), the
configuration merge in the constructor (lines 20-26), the construction order
(lines 17-41) and `destroy` (lines 105-108). -/

/-- JavaScript error values thrown by the facade, tagged with their class:
`genericError` is a plain `new Error(msg)`, `unknownModelError` a dedicated
`UnknownModelError` class. -/
inductive JsError where
  | genericError (msg : String)
  | unknownModelError (msg : String)
deriving DecidableEq, Repr

/-- A repository handed out by the entity manager. -/
structure Repository where
  uid : String
deriving DecidableEq, Repr

/-- The metadata registry interface used by `query`: `has uid`. -/
structure Metadata where
  has : String → Bool

/-- The entity manager interface used by `query`: `getRepository uid`. -/
structure EntityManager where
  getRepository : String → Repository

/-- The parts of a constructed `Database` that `query` consults. -/
structure Database where
  metadata : Metadata
  entityManager : EntityManager

/-- `Database.query(uid)` (lines 43-49): `throw new Error(`Model ${uid} not
found`)` when the uid is not registered, otherwise return the entity
manager's repository for it. -/
def Database.query (db : Database) (uid : String) : Except JsError Repository :=
  if !(db.metadata.has uid) then
    Except.error (JsError.genericError ("Model " ++ uid ++ " not found"))
  else
    Except.ok (db.entityManager.getRepository uid)

/-- Does a `query` result signal an error of the `UnknownModelError` class? -/
def isUnknownModelError : Except JsError Repository → Bool
  | Except.error (JsError.unknownModelError _) => true
  | _ => false

/-- A sample database whose registry holds exactly the uid `"article"`. -/
def sampleDb : Database :=
  { metadata := ⟨fun uid => uid == "article"⟩,
    entityManager := ⟨fun uid => ⟨uid⟩⟩ }

/-- C4 counterexample: for the unregistered uid `"missing"`, `query` throws a
plain generic `Error` (`new Error(...)`), not an error of a dedicated
`UnknownModelError` class, refuting the claim as stated at this input. -/
theorem C4_counterexample :
    isUnknownModelError (sampleDb.query "missing") = false ∧
    sampleDb.query "missing" =
      Except.error (JsError.genericError "Model missing not found") := by
  constructor <;> rfl

/-- C4 (amended): for every unregistered uid, `query` throws a plain `Error`
with message `Model <uid> not found` — not an `UnknownModelError` instance —
and never returns a repository; for every registered uid it returns the
entity manager's repository for that uid. -/
theorem C4_query_unknown_model (db : Database) (uid : String) :
    (db.metadata.has uid = false →
      db.query uid =
        Except.error (JsError.genericError ("Model " ++ uid ++ " not found"))) ∧
    (db.metadata.has uid = true →
      db.query uid = Except.ok (db.entityManager.getRepository uid)) := by
  constructor <;> intro h <;> simp [Database.query, h]

/-- Witness for C4 (amended) at the sample database: an unregistered uid
yields the generic error, the registered uid `"article"` yields its
repository. -/
theorem C4_query_unknown_model_witness :
    sampleDb.query "missing" =
      Except.error (JsError.genericError "Model missing not found") ∧
    sampleDb.query "article" =
      Except.ok (sampleDb.entityManager.getRepository "article") := by
  constructor
  · rw [(C4_query_unknown_model sampleDb "missing").1 rfl]
    rfl
  · exact (C4_query_unknown_model sampleDb "article").2 rfl

/-- The caller-supplied `settings` object; a `none` field is an absent key. -/
structure SettingsCfg where
  forceMigration : Option Bool
deriving DecidableEq, Repr

/-- The caller-supplied configuration object; a `none` field is an absent
key.  Driver-specific connection settings are opaque strings here. -/
structure Config where
  connection : Option String
  settings : Option SettingsCfg
  models : List String
deriving DecidableEq, Repr

/-- The configuration after the constructor's merge. -/
structure ResolvedConfig where
  connection : String
  settings : SettingsCfg
deriving DecidableEq, Repr

/-- Lines 20-26: `this.config = { connection: {}, settings: { forceMigration:
true }, ...config }`.  JavaScript object spread is shallow: a key present in
`config` replaces the default value wholesale.  The empty default connection
object `{}` is rendered as the empty string. -/
def mergeConfig (config : Config) : ResolvedConfig :=
  { connection :=
      match config.connection with
      | some c => c
      | none => ""
    settings :=
      match config.settings with
      | some s => s
      | none => { forceMigration := some true } }

/-- C9 counterexample: a caller that supplies a `settings` object without a
`forceMigration` key gets `forceMigration` absent (undefined), not the
default `true` — the shallow spread replaced the whole default `settings`
object — refuting the claim as stated at this input. -/
theorem C9_counterexample :
    (mergeConfig ⟨none, some ⟨none⟩, []⟩).settings.forceMigration ≠ some true := by
  decide

/-- C9 (amended): the default `settings.forceMigration = true` applies
exactly when the caller omitted the whole `settings` key; when the caller
supplies a `settings` object it is taken wholesale, so the effective
`forceMigration` is exactly the supplied field (in particular the supplied
boolean when one was given, and absent when the supplied object lacks the
key). -/
theorem C9_forceMigration_default (config : Config) :
    (config.settings = none →
      (mergeConfig config).settings.forceMigration = some true) ∧
    (∀ s, config.settings = some s → (mergeConfig config).settings = s) ∧
    (∀ s b, config.settings = some s → s.forceMigration = some b →
      (mergeConfig config).settings.forceMigration = some b) := by
  refine ⟨?_, ?_, ?_⟩
  · intro h
    simp [mergeConfig, h]
  · intro s h
    simp [mergeConfig, h]
  · intro s b h hb
    simp [mergeConfig, h, hb]

/-- Witness for C9 (amended): omitting `settings` yields the default `true`;
supplying `settings: { forceMigration: false }` yields `false`. -/
theorem C9_forceMigration_default_witness :
    (mergeConfig ⟨none, none, []⟩).settings.forceMigration = some true ∧
    (mergeConfig ⟨none, some ⟨some false⟩, []⟩).settings.forceMigration =
      some false := by
  constructor
  · exact (C9_forceMigration_default ⟨none, none, []⟩).1 rfl
  · exact (C9_forceMigration_default ⟨none, some ⟨some false⟩, []⟩).2.2
      ⟨some false⟩ false rfl rfl

/-- The setup steps the constructor (lines 17-41) performs, in trace order. -/
inductive BuildEvent where
  | metadataCreated
  | dialectSelected
  | dialectConfigured
  | connectionCreated
  | dialectInitialized
  | schemaCreated
  | migrationsCreated
  | lifecyclesCreated
  | entityManagerCreated
deriving DecidableEq, Repr

/-- The parts of the constructed facade the construction-order claim is
about. -/
structure BuiltDatabase where
  config : ResolvedConfig
  dialect : Nat
  models : List String
deriving DecidableEq, Repr

/-- `new Database(config)` (lines 17-41) as a straight-line composition
emitting one event per setup step.  `getDialect` comes from the `./dialects`
module, which is outside the shown source, so dialect selection is abstracted
as the parameter `selectDialect`; `dialect.configure()`, `createConnection()`
and `dialect.initialize()` are recorded as events in program order. -/
def constructDatabase (selectDialect : Config → Nat) (config : Config) :
    BuiltDatabase × List BuildEvent :=
  let log0 : List BuildEvent := []
  let models := config.models
  let log1 := log0 ++ [BuildEvent.metadataCreated]
  let cfg := mergeConfig config
  let dialect := selectDialect config
  let log2 := log1 ++ [BuildEvent.dialectSelected]
  let log3 := log2 ++ [BuildEvent.dialectConfigured]
  let log4 := log3 ++ [BuildEvent.connectionCreated]
  let log5 := log4 ++ [BuildEvent.dialectInitialized]
  let log6 := log5 ++ [BuildEvent.schemaCreated]
  let log7 := log6 ++ [BuildEvent.migrationsCreated]
  let log8 := log7 ++ [BuildEvent.lifecyclesCreated]
  let log9 := log8 ++ [BuildEvent.entityManagerCreated]
  (⟨cfg, dialect, models⟩, log9)

/-- C7: during construction the dialect is configured strictly before the
connection is created, and the dialect's post-connection initialization comes
strictly after the connection is created; each of these steps happens exactly
once, the dialect is selected exactly once, and the constructed facade's
dialect is exactly the one selected from the configuration. -/
theorem C7_construction_order (selectDialect : Config → Nat) (config : Config) :
    (constructDatabase selectDialect config).1.dialect = selectDialect config ∧
    (constructDatabase selectDialect config).2.indexOf BuildEvent.dialectConfigured <
      (constructDatabase selectDialect config).2.indexOf BuildEvent.connectionCreated ∧
    (constructDatabase selectDialect config).2.indexOf BuildEvent.connectionCreated <
      (constructDatabase selectDialect config).2.indexOf BuildEvent.dialectInitialized ∧
    (constructDatabase selectDialect config).2.count BuildEvent.dialectSelected = 1 ∧
    (constructDatabase selectDialect config).2.count BuildEvent.dialectConfigured = 1 ∧
    (constructDatabase selectDialect config).2.count BuildEvent.connectionCreated = 1 ∧
    (constructDatabase selectDialect config).2.count BuildEvent.dialectInitialized = 1 := by
  have h2 : (constructDatabase selectDialect config).2 =
      [BuildEvent.metadataCreated, BuildEvent.dialectSelected,
       BuildEvent.dialectConfigured, BuildEvent.connectionCreated,
       BuildEvent.dialectInitialized, BuildEvent.schemaCreated,
       BuildEvent.migrationsCreated, BuildEvent.lifecyclesCreated,
       BuildEvent.entityManagerCreated] := rfl
  refine ⟨rfl, ?_, ?_, ?_, ?_, ?_, ?_⟩ <;> rw [h2] <;> decide

/-- Teardown steps performed by `destroy`. -/
inductive TeardownEvent where
  | lifecyclesCleared
  | connectionDestroyed
deriving DecidableEq, Repr

/-- `await this.lifecycles.clear()`. -/
def lifecyclesClear (log : List TeardownEvent) : List TeardownEvent :=
  log ++ [TeardownEvent.lifecyclesCleared]

/-- `await this.connection.destroy()`. -/
def connectionDestroy (log : List TeardownEvent) : List TeardownEvent :=
  log ++ [TeardownEvent.connectionDestroyed]

/-- `Database.destroy()` (lines 105-108): first awaits the lifecycle
provider's `clear()`, then awaits the connection pool's `destroy()`, and
resolves with no value. -/
def destroy (log : List TeardownEvent) : Unit × List TeardownEvent :=
  let l1 := lifecyclesClear log
  let l2 := connectionDestroy l1
  ((), l2)

/-- C8: `destroy()` appends exactly the two teardown steps, lifecycle
deregistration strictly before connection-pool release, and resolves with no
value. -/
theorem C8_destroy_order (log : List TeardownEvent) :
    (destroy log).2 =
      log ++ [TeardownEvent.lifecyclesCleared, TeardownEvent.connectionDestroyed] ∧
    (destroy log).1 = () := by
  constructor
  · simp [destroy, lifecyclesClear, connectionDestroy]
  · rfl

end StrapiFacade
